import Mathlib

/-!
Shallow embedding of the `analyzer` package of contextpilot (Go source,
`src/unnamed/part_002`) and verification of the frozen claims about it.

Modelling conventions:
* A filesystem entry is an `FSTree`: a regular file, a directory with a list
  of children, or `errEntry` — an entry whose `lstat` (and any read) fails.
  Entry names never contain a path separator, matching what the OS returns.
* The raw bytes of a file are abstracted by their JSON parse: `content = none`
  means the bytes are not syntactically valid JSON, `content = some j` means
  they parse to the JSON value `j`.  Only `package.json` is ever read, so the
  content of other files is irrelevant.
* Go's `map[string]string`, which may be `nil`, is `GoMap = Option` of an
  association list; `none` is the nil map.
* Go `float64` percentages are modelled by exact rationals `ℚ`.
* `strings.ToLower` is modelled on ASCII letters (all names in play are ASCII).
* Go map iteration order is unspecified, so the conversion of the extension
  histogram to `languages` is parametrised by an enumeration `order` of the
  histogram's keys (`validOrder`), mirroring `for ext, count := range extCount`.
-/

namespace CPilot

/-- A JSON value, the abstract result of parsing a file's bytes. -/
inductive JValue where
  | null
  | bool (b : Bool)
  | num (q : ℚ)
  | str (s : String)
  | arr (xs : List JValue)
  | obj (fields : List (String × JValue))

/-- A filesystem entry: a regular file (with the JSON parse of its bytes),
a directory, or an entry whose `lstat`/read fails (`errEntry`). -/
inductive FSTree where
  | file (name : String) (content : Option JValue)
  | dir (name : String) (children : List FSTree)
  | errEntry (name : String)

/-- The name of a filesystem entry. -/
def FSTree.entryName : FSTree → String
  | .file n _ => n
  | .dir n _ => n
  | .errEntry n => n

/-- What `lstat` finds at the analyzer's root path: nothing (path missing or
inaccessible), or a filesystem entry. -/
inductive Root where
  | missing
  | present (t : FSTree)

/-- The entries directly under the root, as seen by `os.Stat`/`os.ReadFile`
probes of the form `filepath.Join(a.rootPath, name)`.  Probing under a missing
root or under a non-directory fails, hence the empty list. -/
def Root.children : Root → List FSTree
  | .missing => []
  | .present (.dir _ cs) => cs
  | .present _ => []

/-- The `Analyzer` struct: the bound root path and what the filesystem holds
there.  `New` always sets the `gitIgnore` field to the fixed list `gitIgnore`
below, so the field is modelled as that constant. -/
structure Analyzer where
  rootPath : String
  tree : Root

/-- The fixed ignore list installed by `New`. -/
def gitIgnore : List String :=
  ["node_modules", "vendor", ".git", "dist", "build",
   ".next", "__pycache__", ".venv", "venv", ".idea",
   ".vscode", "coverage", ".nyc_output"]

/-- ASCII `strings.ToLower` on one character. -/
def lowerChar (c : Char) : Char :=
  if 'A' ≤ c ∧ c ≤ 'Z' then Char.ofNat (c.toNat + 32) else c

/-- ASCII `strings.ToLower`. -/
def lowerStr (s : String) : String :=
  String.mk (s.toList.map lowerChar)

/-- The suffix of a character list starting at its last `'.'`, if any. -/
def lastDotSuffix : List Char → Option (List Char)
  | [] => none
  | c :: rest =>
    match lastDotSuffix rest with
    | some s => some s
    | none => if c = '.' then some (c :: rest) else none

/-- `filepath.Ext` on an entry name (names contain no path separator):
the suffix beginning at the final dot, or `""` when there is no dot. -/
def goExt (n : String) : String :=
  match lastDotSuffix n.toList with
  | some s => String.mk s
  | none => ""

/-- The key set of the `codeExts` map literal in `isCodeFile`. -/
def codeExts : List String :=
  [".js", ".ts", ".jsx", ".tsx", ".go", ".py", ".rb", ".rs",
   ".java", ".kt", ".swift", ".c", ".cpp", ".h", ".cs", ".php",
   ".vue", ".svelte"]

/-- `isCodeFile` from the source: membership in the fixed extension set. -/
def isCodeFile (ext : String) : Bool := codeExts.contains ext

/-- `strings.ToLower(filepath.Ext(path))` for an entry name. -/
def extLower (n : String) : String := lowerStr (goExt n)

/-- Whether the walk callback counts a file: `ext != "" && isCodeFile(ext)`. -/
def isCounted (n : String) : Bool :=
  extLower n != "" && isCodeFile (extLower n)

/-- The `langMap` literal of `extensionToLanguage`. -/
def langMap : List (String × String) :=
  [(".js", "JavaScript"), (".ts", "TypeScript"), (".jsx", "JavaScript (JSX)"),
   (".tsx", "TypeScript (TSX)"), (".go", "Go"), (".py", "Python"),
   (".rb", "Ruby"), (".rs", "Rust"), (".java", "Java"), (".kt", "Kotlin"),
   (".swift", "Swift"), (".c", "C"), (".cpp", "C++"), (".h", "C/C++ Header"),
   (".cs", "C#"), (".php", "PHP"), (".vue", "Vue"), (".svelte", "Svelte")]

/-- `extensionToLanguage`: Go map lookup, `""` when the key is absent. -/
def extensionToLanguage (ext : String) : String :=
  match langMap.find? (fun p => p.1 == ext) with
  | some p => p.2
  | none => ""

/-- The results the walk callback in `Analyze` can return: its return
statements are `return nil` and `return filepath.SkipDir`, nothing else. -/
inductive FnRes where
  | ok
  | skipDir
deriving DecidableEq

mutual

/-- `filepath.walk` on an entry whose `lstat` succeeded, specialised to the
callback of `Analyze`; paired with the lowercase extensions the callback
counts into `extCount`.  A directory on the ignore list yields
`filepath.SkipDir` before its children are visited. -/
def walkOK : FSTree → FnRes × List String
  | .file n _ => (.ok, if isCounted n then [extLower n] else [])
  | .errEntry _ => (.ok, [])
  | .dir n cs =>
    if gitIgnore.contains n then (.skipDir, [])
    else walkList cs

/-- The loop of `filepath.walk` over a directory's entries: a child whose
`lstat` fails is passed to the callback with an error, which returns `nil`
("skip errors"); `SkipDir` from a directory child skips that subtree only
(a `SkipDir` from a non-directory would propagate, but the callback never
returns it for files). -/
def walkList : List FSTree → FnRes × List String
  | [] => (.ok, [])
  | .errEntry _ :: rest => walkList rest
  | .file n c :: rest =>
    match walkOK (.file n c) with
    | (.skipDir, es) => (.skipDir, es)
    | (.ok, es) =>
      let (r2, es2) := walkList rest
      (r2, es ++ es2)
  | .dir n cs :: rest =>
    let (_, es) := walkOK (.dir n cs)
    let (r2, es2) := walkList rest
    (r2, es ++ es2)

end

/-- `filepath.Walk(a.rootPath, fn)`: when `lstat(root)` fails the callback is
invoked once with the error and returns `nil`; a `SkipDir` escaping the root
is converted to `nil` by `Walk` itself. -/
def filepathWalk : Root → FnRes × List String
  | .missing => (.ok, [])
  | .present t => walkOK t

/-- The value `filepath.Walk` returns, as tested by `if err != nil` in
`Analyze`: `nil` both for a normal finish and for a root-level `SkipDir`. -/
def resToErr : FnRes → Option String
  | .ok => none
  | .skipDir => none

/-- The multiset of lowercase recognized extensions counted during the walk
(the contents of `extCount`, with multiplicity, and `totalFiles` as length). -/
def collectedExts (r : Root) : List String := (filepathWalk r).2

/-- A Go `map[string]string`, possibly nil. -/
abbrev GoMap := Option (List (String × String))

/-- Go map read `m[k]` with its `ok` flag collapsed into `Option`. -/
def GoMap.find? : GoMap → String → Option String
  | none, _ => none
  | some l, k => (l.find? (fun p => p.1 == k)).map (fun p => p.2)

/-- Insert/overwrite a key in an association list (JSON object decoding into a
Go map: a repeated key overwrites the earlier entry). -/
def insertKV : List (String × String) → String → String → List (String × String)
  | [], k, v => [(k, v)]
  | (k', v') :: rest, k, v =>
    if k' = k then (k, v) :: rest else (k', v') :: insertKV rest k v

/-- Decode a JSON object's fields into a Go `map[string]string`; any
non-string value makes `json.Unmarshal` report an error. -/
def unmarshalMapFields : List (String × JValue) → List (String × String) →
    Option (List (String × String))
  | [], acc => some acc
  | (k, .str s) :: rest, acc => unmarshalMapFields rest (insertKV acc k s)
  | _, _ => none

/-- `json.Unmarshal` of a JSON value into a `map[string]string` field:
`null` leaves the map nil, an object decodes field by field, anything else
is a type error. -/
def unmarshalStringMap : JValue → Option GoMap
  | .null => some none
  | .obj fields => (unmarshalMapFields fields []).map some
  | _ => none

/-- The anonymous struct `Analyze` decodes `package.json` into. -/
structure PkgStruct where
  dependencies : GoMap
  devDependencies : GoMap
deriving DecidableEq

/-- Decode the fields of a JSON object into `PkgStruct`; JSON keys match the
struct's json tags case-insensitively, unknown keys are ignored, a repeated
key overwrites the earlier value. -/
def unmarshalPkgFields : List (String × JValue) → PkgStruct → Option PkgStruct
  | [], acc => some acc
  | (k, v) :: rest, acc =>
    if lowerStr k = "dependencies" then
      match unmarshalStringMap v with
      | some m => unmarshalPkgFields rest { acc with dependencies := m }
      | none => none
    else if lowerStr k = "devdependencies" then
      match unmarshalStringMap v with
      | some m => unmarshalPkgFields rest { acc with devDependencies := m }
      | none => none
    else unmarshalPkgFields rest acc

/-- `json.Unmarshal(data, &pkg)`: `null` succeeds leaving the zero value
(both maps nil), an object decodes its fields, any other value is an error. -/
def unmarshalPkg : JValue → Option PkgStruct
  | .null => some ⟨none, none⟩
  | .obj fields => unmarshalPkgFields fields ⟨none, none⟩
  | _ => none

/-- `os.Stat(filepath.Join(root, name))` restricted to what the code uses:
the entry found directly under the root, `none` when the stat fails
(no such entry, or the entry's metadata is unreadable). -/
def statEntry (cs : List FSTree) (name : String) : Option FSTree :=
  match cs.find? (fun e => e.entryName == name) with
  | some (.errEntry _) => none
  | r => r

/-- Whether `os.Stat(root/name)` succeeds (`err == nil`). -/
def statOk (cs : List FSTree) (name : String) : Bool :=
  (statEntry cs name).isSome

/-- Whether `os.Stat(root/name)` succeeds and reports a directory. -/
def statIsDir (cs : List FSTree) (name : String) : Bool :=
  match statEntry cs name with
  | some (.dir _ _) => true
  | _ => false

/-- Whether `os.Stat(filepath.Join(root, d, name))` succeeds. -/
def statOkNested (cs : List FSTree) (d : String) (name : String) : Bool :=
  match statEntry cs d with
  | some (.dir _ cs2) => statOk cs2 name
  | _ => false

/-- `os.ReadFile(root/package.json)` followed by `json.Unmarshal`: succeeds
only when the entry is a readable regular file holding valid JSON that
unmarshals into `PkgStruct`. -/
def readParsePkg (cs : List FSTree) : Option PkgStruct :=
  match cs.find? (fun e => e.entryName == "package.json") with
  | some (.file _ (some j)) => unmarshalPkg j
  | _ => none

/-- `Language` record of the analysis. -/
structure Language where
  name : String
  extension : String
  fileCount : Nat
  percentage : ℚ
deriving DecidableEq

/-- `Framework` record. -/
structure Framework where
  name : String
  version : String
deriving DecidableEq

/-- `Structure` record (project directory structure). -/
structure Structure where
  type : String
  srcDir : String
  folders : List String
  entryPoint : String
deriving DecidableEq

/-- `PackageInfo` record. -/
structure PackageInfo where
  manager : String
  dependencies : GoMap
  devDeps : GoMap
deriving DecidableEq

/-- `Patterns` record. -/
structure Patterns where
  namingConvention : String
  exportStyle : String
  testFramework : String
  linter : String
  formatter : String
  orm : String
  stateManagement : String
  styling : String
deriving DecidableEq

/-- `Decision` record (always empty in the analyzer's own output). -/
structure Decision where
  date : String
  text : String
  context : String
deriving DecidableEq

/-- The `Analysis` result record. -/
structure Analysis where
  rootPath : String
  languages : List Language
  framework : Option Framework
  structure_ : Structure
  packages : PackageInfo
  patterns : Patterns
  decisions : List Decision
deriving DecidableEq

/-- The fresh `Analysis` literal built at the top of `Analyze`, with the
`languages` slice already filled by the conversion loop below the walk
(`Dependencies: make(map[string]string)` is the non-nil empty map). -/
def initAnalysis (rp : String) (langs : List Language) : Analysis :=
  { rootPath := rp
    languages := langs
    framework := none
    structure_ := { type := "", srcDir := "", folders := [], entryPoint := "" }
    packages := { manager := "", dependencies := some [], devDeps := none }
    patterns := { namingConvention := "", exportStyle := "", testFramework := ""
                  linter := "", formatter := "", orm := ""
                  stateManagement := "", styling := "" }
    decisions := [] }

/-- The conversion loop `for ext, count := range extCount`: iterate the keys
in the map order `order`, emitting a `Language` entry whenever
`extensionToLanguage` is non-empty, with `pct = count/totalFiles*100`. -/
def mkLanguages (exts : List String) (order : List String) : List Language :=
  order.filterMap fun ext =>
    let lang := extensionToLanguage ext
    if lang = "" then none
    else some { name := lang, extension := ext, fileCount := exts.count ext
                percentage := (exts.count ext : ℚ) / (exts.length : ℚ) * 100 }

/-- `order` is a valid Go-map iteration order of the keys of `extCount`:
each distinct collected extension exactly once. -/
def validOrder (exts order : List String) : Prop :=
  order.Nodup ∧ (∀ e ∈ order, e ∈ exts) ∧ (∀ e ∈ exts, e ∈ order)

instance (exts order : List String) : Decidable (validOrder exts order) := by
  unfold validOrder
  infer_instance

/-- The framework priority chain of `detectFramework`:
next → express → react → vue → svelte, first match wins. -/
def frameworkOfDeps (deps : GoMap) : Option Framework :=
  match deps.find? "next" with
  | some v => some ⟨"Next.js", v⟩
  | none =>
    match deps.find? "express" with
    | some v => some ⟨"Express", v⟩
    | none =>
      match deps.find? "react" with
      | some v => some ⟨"React", v⟩
      | none =>
        match deps.find? "vue" with
        | some v => some ⟨"Vue.js", v⟩
        | none =>
          match deps.find? "svelte" with
          | some v => some ⟨"Svelte", v⟩
          | none => none

/-- The ORM chain: prisma → @prisma/client → drizzle-orm → typeorm → mongoose
(all looked up in `Dependencies`). -/
def ormOfDeps (deps : GoMap) : Option String :=
  if (deps.find? "prisma").isSome then some "Prisma"
  else if (deps.find? "@prisma/client").isSome then some "Prisma"
  else if (deps.find? "drizzle-orm").isSome then some "Drizzle"
  else if (deps.find? "typeorm").isSome then some "TypeORM"
  else if (deps.find? "mongoose").isSome then some "Mongoose"
  else none

/-- The test-framework chain over `DevDependencies`: vitest → jest → mocha. -/
def testFwOfDeps (devDeps : GoMap) : Option String :=
  if (devDeps.find? "vitest").isSome then some "Vitest"
  else if (devDeps.find? "jest").isSome then some "Jest"
  else if (devDeps.find? "mocha").isSome then some "Mocha"
  else none

/-- The styling chain: tailwindcss in `Dependencies`, then in
`DevDependencies`, then styled-components in `Dependencies`. -/
def stylingOfDeps (deps devDeps : GoMap) : Option String :=
  if (deps.find? "tailwindcss").isSome then some "Tailwind CSS"
  else if (devDeps.find? "tailwindcss").isSome then some "Tailwind CSS"
  else if (deps.find? "styled-components").isSome then some "Styled Components"
  else none

/-- The state-management chain over `Dependencies`:
zustand → @reduxjs/toolkit → jotai → recoil. -/
def stateOfDeps (deps : GoMap) : Option String :=
  if (deps.find? "zustand").isSome then some "Zustand"
  else if (deps.find? "@reduxjs/toolkit").isSome then some "Redux Toolkit"
  else if (deps.find? "jotai").isSome then some "Jotai"
  else if (deps.find? "recoil").isSome then some "Recoil"
  else none

/-- The formatter chain over `DevDependencies`: prettier → biome. -/
def formatterOfDeps (devDeps : GoMap) : Option String :=
  if (devDeps.find? "prettier").isSome then some "Prettier"
  else if (devDeps.find? "biome").isSome then some "Biome"
  else none

/-- Apply the framework chain's assignment (the field is left untouched when
no dependency matches). -/
def setFramework (deps : GoMap) (a : Analysis) : Analysis :=
  match frameworkOfDeps deps with
  | some f => { a with framework := some f }
  | none => a

/-- Apply the ORM chain's assignment. -/
def setORM (deps : GoMap) (a : Analysis) : Analysis :=
  match ormOfDeps deps with
  | some s => { a with patterns := { a.patterns with orm := s } }
  | none => a

/-- Apply the test-framework chain's assignment. -/
def setTestFw (devDeps : GoMap) (a : Analysis) : Analysis :=
  match testFwOfDeps devDeps with
  | some s => { a with patterns := { a.patterns with testFramework := s } }
  | none => a

/-- Apply the styling chain's assignment. -/
def setStyling (deps devDeps : GoMap) (a : Analysis) : Analysis :=
  match stylingOfDeps deps devDeps with
  | some s => { a with patterns := { a.patterns with styling := s } }
  | none => a

/-- Apply the state-management chain's assignment. -/
def setStateMgmt (deps : GoMap) (a : Analysis) : Analysis :=
  match stateOfDeps deps with
  | some s => { a with patterns := { a.patterns with stateManagement := s } }
  | none => a

/-- Apply the linter check: `eslint` in `DevDependencies` (no else branch). -/
def setLinter (devDeps : GoMap) (a : Analysis) : Analysis :=
  if (devDeps.find? "eslint").isSome then
    { a with patterns := { a.patterns with linter := "ESLint" } }
  else a

/-- Apply the formatter chain's assignment. -/
def setFormatter (devDeps : GoMap) (a : Analysis) : Analysis :=
  match formatterOfDeps devDeps with
  | some s => { a with patterns := { a.patterns with formatter := s } }
  | none => a

/-- The `package.json` block of `detectFramework`: when the file reads and
unmarshals, record manager "npm", copy both maps, then run the framework,
ORM, testing, styling, state-management, linter and formatter checks. -/
def applyNpm (cs : List FSTree) (a : Analysis) : Analysis :=
  match readParsePkg cs with
  | none => a
  | some pkg =>
    let a1 := { a with packages := { manager := "npm"
                                     dependencies := pkg.dependencies
                                     devDeps := pkg.devDependencies } }
    let a2 := setFramework pkg.dependencies a1
    let a3 := setORM pkg.dependencies a2
    let a4 := setTestFw pkg.devDependencies a3
    let a5 := setStyling pkg.dependencies pkg.devDependencies a4
    let a6 := setStateMgmt pkg.dependencies a5
    let a7 := setLinter pkg.devDependencies a6
    setFormatter pkg.devDependencies a7

/-- `detectFramework`: the `package.json` block, then the `go.mod` probe,
then the `pyproject.toml` / `requirements.txt` probes, each overwriting
`Packages.Manager` when its file stats successfully. -/
def detectFramework (cs : List FSTree) (a : Analysis) : Analysis :=
  let a1 := applyNpm cs a
  let a2 :=
    if statOk cs "go.mod" then
      { a1 with packages := { a1.packages with manager := "go" } }
    else a1
  if statOk cs "pyproject.toml" then
    { a2 with packages := { a2.packages with manager := "poetry/pip" } }
  else if statOk cs "requirements.txt" then
    { a2 with packages := { a2.packages with manager := "pip" } }
  else a2

/-- The `commonDirs` probe list of `analyzeStructure`. -/
def commonDirs : List String :=
  ["src", "app", "lib", "components", "pages", "api", "utils", "hooks",
   "services", "models", "types"]

/-- The `entryPoints` candidate list of `analyzeStructure`. -/
def entryPoints : List String :=
  ["index.ts", "index.js", "main.ts", "main.js", "main.go", "main.py", "app.py"]

/-- `filepath.Join` of two clean separator-free components. -/
def pathJoin (a b : String) : String := a ++ "/" ++ b

/-- The `SrcDir` assignment of `analyzeStructure`: "src" when among the found
directories, else "app" when found, else unset. -/
def srcDirOf (foundDirs : List String) : String :=
  if foundDirs.contains "src" then "src"
  else if foundDirs.contains "app" then "app"
  else ""

/-- The entry-point loop of `analyzeStructure`: for each candidate, probe it
directly under root and break on success, else (when `SrcDir` is set) probe
it under `SrcDir` and break on success, else move to the next candidate. -/
def epLoop (cs : List FSTree) (srcDir : String) : List String → String
  | [] => ""
  | e :: rest =>
    if statOk cs e then e
    else if srcDir ≠ "" ∧ statOkNested cs srcDir e then pathJoin srcDir e
    else epLoop cs srcDir rest

/-- The `folders` value of `analyzeStructure`: the common directory names
that stat as directories under root, in probe-list order. -/
def foundDirsOf (cs : List FSTree) : List String :=
  commonDirs.filter (fun d => statIsDir cs d)

/-- The `SrcDir` value computed by `analyzeStructure`. -/
def srcDirVal (cs : List FSTree) : String := srcDirOf (foundDirsOf cs)

/-- The final `Structure` value assigned by `analyzeStructure`: type
"monorepo" when one of the five indicators stats successfully at root
(otherwise the initial "standard"), the found folders, the source directory,
and the entry point found by the candidate loop. -/
def structVal (cs : List FSTree) : Structure :=
  { type :=
      if statOk cs "packages" || statOk cs "apps" ||
         statOk cs "pnpm-workspace.yaml" || statOk cs "lerna.json" ||
         statOk cs "turbo.json" then "monorepo"
      else "standard"
    srcDir := srcDirVal cs
    folders := foundDirsOf cs
    entryPoint := epLoop cs (srcDirVal cs) entryPoints }

/-- `analyzeStructure`: writes only the `Structure` field. -/
def analyzeStructure (cs : List FSTree) (a : Analysis) : Analysis :=
  { a with structure_ := structVal cs }

/-- The loop of `detectPatterns` over `analysis.Languages`: the first entry
naming Go, Python, TypeScript or JavaScript sets the naming convention (and,
except for Python, the export style) and breaks. -/
def patternsLoop : List Language → Patterns → Patterns
  | [], p => p
  | l :: rest, p =>
    if l.name = "Go" then
      { p with namingConvention := "camelCase/PascalCase"
               exportStyle := "named (capitalized)" }
    else if l.name = "Python" then
      { p with namingConvention := "snake_case" }
    else if l.name = "TypeScript" ∨ l.name = "JavaScript" then
      { p with namingConvention := "camelCase", exportStyle := "mixed" }
    else patternsLoop rest p

/-- `detectPatterns`: runs the language loop only when no naming convention
has been set yet. -/
def detectPatterns (a : Analysis) : Analysis :=
  if a.patterns.namingConvention = "" then
    { a with patterns := patternsLoop a.languages a.patterns }
  else a

/-- The pure result record of `Analyze` (the `*Analysis` it returns),
parametrised by the Go-map iteration order of `extCount`. -/
def analyze (az : Analyzer) (order : List String) : Analysis :=
  let cs := az.tree.children
  detectPatterns (analyzeStructure cs (detectFramework cs
    (initAnalysis az.rootPath (mkLanguages (collectedExts az.tree) order))))

/-- `Analyze` with its error result: the walk's return value is checked by
`if err != nil { return nil, err }` before the analysis is completed. -/
def Analyzer.Analyze (az : Analyzer) (order : List String) :
    Except String Analysis :=
  match resToErr (filepathWalk az.tree).1 with
  | some e => .error e
  | none => .ok (analyze az order)

/-- Whether an `Analyze` call returned a non-error analysis. -/
def analyzeOk (r : Except String Analysis) : Bool :=
  match r with
  | .ok _ => true
  | .error _ => false

/-! ## Characterization of the detection pipeline's final field values -/

/-- The `Framework` value `Analyze` ends up with. -/
def fwFinal (cs : List FSTree) : Option Framework :=
  match readParsePkg cs with
  | some pkg => frameworkOfDeps pkg.dependencies
  | none => none

/-- The `Packages.Manager` value `Analyze` ends up with. -/
def mgrFinal (cs : List FSTree) : String :=
  if statOk cs "pyproject.toml" then "poetry/pip"
  else if statOk cs "requirements.txt" then "pip"
  else if statOk cs "go.mod" then "go"
  else if (readParsePkg cs).isSome then "npm"
  else ""

/-- The `Packages.Dependencies` value `Analyze` ends up with. -/
def depsFinal (cs : List FSTree) : GoMap :=
  match readParsePkg cs with
  | some pkg => pkg.dependencies
  | none => some []

/-- The `Packages.DevDeps` value `Analyze` ends up with. -/
def devFinal (cs : List FSTree) : GoMap :=
  match readParsePkg cs with
  | some pkg => pkg.devDependencies
  | none => none

/-- The `PackageInfo` value `Analyze` ends up with. -/
def pkFinal (cs : List FSTree) : PackageInfo :=
  { manager := mgrFinal cs, dependencies := depsFinal cs, devDeps := devFinal cs }

/-- The blank `Patterns` value of a fresh analysis. -/
def blankPatterns : Patterns :=
  { namingConvention := "", exportStyle := "", testFramework := ""
    linter := "", formatter := "", orm := "", stateManagement := "", styling := "" }

/-- The `Patterns` value after `detectFramework` (naming fields still unset). -/
def patFinal (cs : List FSTree) : Patterns :=
  match readParsePkg cs with
  | some pkg =>
    { namingConvention := "", exportStyle := ""
      testFramework := (testFwOfDeps pkg.devDependencies).getD ""
      linter := if (pkg.devDependencies.find? "eslint").isSome then "ESLint" else ""
      formatter := (formatterOfDeps pkg.devDependencies).getD ""
      orm := (ormOfDeps pkg.dependencies).getD ""
      stateManagement := (stateOfDeps pkg.dependencies).getD ""
      styling := (stylingOfDeps pkg.dependencies pkg.devDependencies).getD "" }
  | none => blankPatterns

/-! ## A simultaneous induction principle for trees and child lists -/

section IndBuilder

variable {P : FSTree → Prop} {Q : List FSTree → Prop}
variable (hf : ∀ n c, P (.file n c)) (he : ∀ n, P (.errEntry n))
variable (hd : ∀ n cs, Q cs → P (.dir n cs))
variable (h0 : Q []) (h1 : ∀ t l, P t → Q l → Q (t :: l))

mutual

/-- Structural induction over a filesystem entry. -/
def fsIndT : ∀ t, P t
  | .file n c => hf n c
  | .errEntry n => he n
  | .dir n cs => hd n cs (fsIndL cs)

/-- Structural induction over a list of filesystem entries. -/
def fsIndL : ∀ l, Q l
  | [] => h0
  | t :: l => h1 t l (fsIndT t) (fsIndL l)

end

end IndBuilder

/-! ## The entry-point probe sequence, stated as a first-match search -/

/-- Reference reading of the entry-point loop: the interleaved probe
sequence — for each candidate in list order, first the root-level probe,
then (when a source directory was detected) the srcDir-level probe — and the
first probe that hits wins. -/
def entryPointSpec (cs : List FSTree) (srcDir : String) : String :=
  match (entryPoints.flatMap fun e =>
      (e, statOk cs e) ::
        (if srcDir = "" then []
         else [(pathJoin srcDir e, statOkNested cs srcDir e)])).find?
      (fun p => p.2) with
  | some p => p.1
  | none => ""

/-! ## Pruning: emptying every ignored directory, at any depth -/

mutual

/-- Replace the contents of every directory whose base name is on the ignore
list (at any depth) by the empty list, keeping the directory entry itself. -/
def pruneIgnored : FSTree → FSTree
  | .file n c => .file n c
  | .errEntry n => .errEntry n
  | .dir n cs =>
    if gitIgnore.contains n then .dir n []
    else .dir n (pruneList cs)

/-- `pruneIgnored` mapped over a child list. -/
def pruneList : List FSTree → List FSTree
  | [] => []
  | t :: l => pruneIgnored t :: pruneList l

end

/-- Prune every ignored directory strictly below the root. -/
def pruneRoot : Root → Root
  | .present (.dir n cs) => .present (.dir n (pruneList cs))
  | r => r

/-- Reference definition following the spec's words for the manager field:
"the LAST check in source order (npm, then Go, then Python) that finds its
file wins", written as a reverse-priority first match.  Per the spec's
malformed-manifest rule, the npm probe "finds its file" only when
`package.json` reads and parses. -/
def managerSpecLastWins (cs : List FSTree) : String :=
  if statOk cs "pyproject.toml" then "poetry/pip"
  else if statOk cs "requirements.txt" then "pip"
  else if statOk cs "go.mod" then "go"
  else if (readParsePkg cs).isSome then "npm"
  else ""

/-- Concrete tree for claim C2: a root-level `main.go` next to `src/index.ts`. -/
def c2Tree : Analyzer :=
  { rootPath := "/r"
    tree := .present (.dir "r"
      [.file "main.go" none, .dir "src" [.file "index.ts" none]]) }

/-- Concrete tree for claim C3: two Go files, one Python file, one
unrecognized file, and an ignored directory with a JS file. -/
def c3Tree : Analyzer :=
  { rootPath := "/r"
    tree := .present (.dir "r"
      [.file "a.go" none, .file "b.go" none, .file "c.py" none,
       .file "README.md" none, .dir "node_modules" [.file "x.js" none]]) }

/-- Concrete tree for claim C5: a manifest declaring both next and react. -/
def c5Tree : Analyzer :=
  { rootPath := "/r"
    tree := .present (.dir "r"
      [.file "package.json" (some (.obj [("dependencies",
        .obj [("next", .str "^14.2.0"), ("react", .str "^18.2.0")])]))]) }

/-- Concrete tree for claim C6: a valid npm manifest next to a `go.mod`. -/
def c6Tree : Analyzer :=
  { rootPath := "/r"
    tree := .present (.dir "r"
      [.file "package.json" (some (.obj [("dependencies",
        .obj [("next", .str "^14.2.0")])])),
       .file "go.mod" none]) }

/-- Concrete tree for claim C7: a `package.json` whose bytes are not valid
JSON (content `none`). -/
def c7Tree : Analyzer :=
  { rootPath := "/r"
    tree := .present (.dir "r" [.file "package.json" none, .file "a.ts" none]) }

/-- Concrete tree for claim C8: one Go file and one Python file, so the
naming convention depends on which language the map iteration lists first. -/
def c8Tree : Analyzer :=
  { rootPath := "/r"
    tree := .present (.dir "r" [.file "a.go" none, .file "b.py" none]) }

/-- Concrete tree for claim C9: a regular file named `packages` at root. -/
def c9Tree : Analyzer :=
  { rootPath := "/r", tree := .present (.dir "r" [.file "packages" none]) }

/-- Concrete tree for claim C10: a `package.json` holding the JSON literal
`null`, and no other manifest. -/
def c10Tree : Analyzer :=
  { rootPath := "/r"
    tree := .present (.dir "r" [.file "package.json" (some .null)]) }

lemma setFramework_eq (d : GoMap) (a : Analysis) :
    setFramework d a = { a with framework := (frameworkOfDeps d).or a.framework } := by
  unfold setFramework
  cases frameworkOfDeps d <;> simp [Option.or]

lemma setORM_eq (d : GoMap) (a : Analysis) :
    setORM d a =
      { a with patterns := { a.patterns with orm := (ormOfDeps d).getD a.patterns.orm } } := by
  unfold setORM
  cases ormOfDeps d <;> simp

lemma setTestFw_eq (d : GoMap) (a : Analysis) :
    setTestFw d a =
      { a with patterns :=
          { a.patterns with testFramework := (testFwOfDeps d).getD a.patterns.testFramework } } := by
  unfold setTestFw
  cases testFwOfDeps d <;> simp

lemma setStyling_eq (d d' : GoMap) (a : Analysis) :
    setStyling d d' a =
      { a with patterns :=
          { a.patterns with styling := (stylingOfDeps d d').getD a.patterns.styling } } := by
  unfold setStyling
  cases stylingOfDeps d d' <;> simp

lemma setStateMgmt_eq (d : GoMap) (a : Analysis) :
    setStateMgmt d a =
      { a with patterns :=
          { a.patterns with stateManagement := (stateOfDeps d).getD a.patterns.stateManagement } } := by
  unfold setStateMgmt
  cases stateOfDeps d <;> simp

lemma setLinter_eq (d : GoMap) (a : Analysis) :
    setLinter d a =
      { a with patterns :=
          { a.patterns with linter :=
              if (GoMap.find? d "eslint").isSome then "ESLint" else a.patterns.linter } } := by
  unfold setLinter
  split <;> simp_all

lemma setFormatter_eq (d : GoMap) (a : Analysis) :
    setFormatter d a =
      { a with patterns :=
          { a.patterns with formatter := (formatterOfDeps d).getD a.patterns.formatter } } := by
  unfold setFormatter
  cases formatterOfDeps d <;> simp

/-- `detectFramework` on the fresh analysis record: full characterization of
every field it produces. -/
lemma detectFramework_init (cs : List FSTree) (rp : String) (L : List Language) :
    detectFramework cs (initAnalysis rp L) =
      { rootPath := rp, languages := L, framework := fwFinal cs
        structure_ := { type := "", srcDir := "", folders := [], entryPoint := "" }
        packages := pkFinal cs, patterns := patFinal cs, decisions := [] } := by
  have happ : applyNpm cs (initAnalysis rp L) =
      { rootPath := rp, languages := L, framework := fwFinal cs
        structure_ := { type := "", srcDir := "", folders := [], entryPoint := "" }
        packages := { manager := if (readParsePkg cs).isSome then "npm" else ""
                      dependencies := depsFinal cs, devDeps := devFinal cs }
        patterns := patFinal cs, decisions := [] } := by
    unfold applyNpm
    cases hp : readParsePkg cs with
    | none =>
      simp [initAnalysis, fwFinal, depsFinal, devFinal, patFinal, blankPatterns, hp]
    | some pkg =>
      simp only [setFramework_eq, setORM_eq, setTestFw_eq, setStyling_eq,
        setStateMgmt_eq, setLinter_eq, setFormatter_eq]
      simp [initAnalysis, fwFinal, depsFinal, devFinal, patFinal, hp, Option.or]
      cases frameworkOfDeps pkg.dependencies <;> simp [Option.or]
  unfold detectFramework
  rw [happ]
  by_cases hpy : statOk cs "pyproject.toml" = true <;>
    by_cases hrq : statOk cs "requirements.txt" = true <;>
      by_cases hgo : statOk cs "go.mod" = true <;>
        simp [hpy, hrq, hgo, pkFinal, mgrFinal]

lemma patFinal_naming (cs : List FSTree) : (patFinal cs).namingConvention = "" := by
  unfold patFinal
  cases readParsePkg cs <;> rfl

/-- Full decomposition of `analyze`: each output field as a function of the
root's child list (and, for `languages` and the naming fields, the collected
extensions and the map iteration order). -/
theorem analyze_decomp (az : Analyzer) (o : List String) :
    analyze az o =
      { rootPath := az.rootPath
        languages := mkLanguages (collectedExts az.tree) o
        framework := fwFinal az.tree.children
        structure_ := structVal az.tree.children
        packages := pkFinal az.tree.children
        patterns := patternsLoop (mkLanguages (collectedExts az.tree) o)
          (patFinal az.tree.children)
        decisions := [] } := by
  show detectPatterns (analyzeStructure az.tree.children (detectFramework az.tree.children
    (initAnalysis az.rootPath (mkLanguages (collectedExts az.tree) o)))) = _
  rw [detectFramework_init]
  unfold analyzeStructure detectPatterns
  simp [patFinal_naming]


/-! ## Facts about the walk and the language histogram -/

/-- Every extension the walk collects passed the `isCodeFile` filter. -/
lemma walk_exts_code :
    ∀ t, ∀ e ∈ (walkOK t).2, isCodeFile e = true := by
  refine fsIndT (Q := fun l => ∀ e ∈ (walkList l).2, isCodeFile e = true)
    ?_ ?_ ?_ ?_ ?_
  · intro n c e he
    simp only [walkOK] at he
    split at he
    · rename_i hcnt
      simp only [List.mem_singleton] at he
      subst he
      unfold isCounted at hcnt
      exact (Bool.and_eq_true _ _ |>.mp hcnt).2
    · simp at he
  · intro n e he
    simp [walkOK] at he
  · intro n cs ih e he
    simp only [walkOK] at he
    split at he
    · simp at he
    · exact ih e he
  · intro e he
    simp [walkList] at he
  · intro t l iht ihl e he
    match t with
    | .errEntry n =>
      simp only [walkList] at he
      exact ihl e he
    | .file n c =>
      simp only [walkList] at he
      rcases h : walkOK (.file n c) with ⟨r, es⟩
      rw [h] at he
      cases r with
      | skipDir =>
        simp at he
        exact iht e (by rw [h]; exact he)
      | ok =>
        simp at he
        rcases he with he | he
        · exact iht e (by rw [h]; exact he)
        · exact ihl e he
    | .dir n cs =>
      simp only [walkList] at he
      rcases h : walkOK (.dir n cs) with ⟨r, es⟩
      rw [h] at he
      simp at he
      rcases he with he | he
      · exact iht e (by rw [h]; exact he)
      · exact ihl e he

/-- Every extension the walk collects passed `isCodeFile`, root included. -/
lemma collected_code (r : Root) : ∀ e ∈ collectedExts r, isCodeFile e = true := by
  cases r with
  | missing => intro e he; simp [collectedExts, filepathWalk] at he
  | present t => exact walk_exts_code t

/-- The recognized-extension set and the language table have the same keys:
every extension that passes `isCodeFile` has a non-empty language name. -/
lemma lang_of_code (e : String) (h : isCodeFile e = true) :
    extensionToLanguage e ≠ "" := by
  unfold isCodeFile codeExts at h
  simp at h
  rcases h with rfl | rfl | rfl | rfl | rfl | rfl | rfl | rfl | rfl | rfl |
    rfl | rfl | rfl | rfl | rfl | rfl | rfl | rfl <;> decide

/-- When every key in `order` is recognized, the conversion loop emits one
entry per key. -/
lemma mkLanguages_eq_map (exts order : List String)
    (h : ∀ e ∈ order, extensionToLanguage e ≠ "") :
    mkLanguages exts order = order.map fun e =>
      { name := extensionToLanguage e, extension := e, fileCount := exts.count e
        percentage := (exts.count e : ℚ) / (exts.length : ℚ) * 100 } := by
  induction order with
  | nil => rfl
  | cons e rest ih =>
    unfold mkLanguages
    simp only [List.filterMap_cons]
    rw [if_neg (h e (by simp))]
    simp only [List.map_cons]
    congr 1
    exact ih fun x hx => h x (by simp [hx])

/-- Summing the histogram over any duplicate-free enumeration of its key set
recovers the total number of counted files. -/
lemma sum_counts_of_validOrder (exts order : List String)
    (h : validOrder exts order) :
    (order.map fun e => exts.count e).sum = exts.length := by
  have hperm : order.Perm exts.dedup := by
    refine (List.subperm_of_subset h.1 ?_).antisymm
      (List.subperm_of_subset exts.nodup_dedup ?_)
    · intro e he
      exact List.mem_dedup.mpr (h.2.1 e he)
    · intro e he
      exact h.2.2 e (List.mem_dedup.mp he)
  calc (order.map fun e => exts.count e).sum
      = ((exts.dedup).map fun e => exts.count e).sum :=
        (hperm.map fun e => exts.count e).sum_eq
    _ = exts.length := List.sum_map_count_dedup_eq_length exts


lemma epLoop_eq_spec_aux (cs : List FSTree) (srcDir : String) (l : List String) :
    epLoop cs srcDir l =
      match (l.flatMap fun e =>
          (e, statOk cs e) ::
            (if srcDir = "" then []
             else [(pathJoin srcDir e, statOkNested cs srcDir e)])).find?
          (fun p => p.2) with
      | some p => p.1
      | none => "" := by
  induction l with
  | nil => rfl
  | cons e rest ih =>
    by_cases h2 : srcDir = ""
    · subst h2
      simp only [List.flatMap_cons, reduceIte, List.nil_append,
        List.cons_append] at ih ⊢
      by_cases h1 : statOk cs e = true
      · rw [List.find?_cons_of_pos _ (by simpa using h1)]
        simp [epLoop, h1]
      · rw [List.find?_cons_of_neg _ (by simpa using h1)]
        unfold epLoop
        rw [if_neg (by simp [h1]), if_neg (by simp)]
        exact ih
    · simp only [List.flatMap_cons, h2, reduceIte, List.singleton_append,
        List.cons_append] at ih ⊢
      by_cases h1 : statOk cs e = true
      · rw [List.find?_cons_of_pos _ (by simpa using h1)]
        simp [epLoop, h1]
      · rw [List.find?_cons_of_neg _ (by simpa using h1)]
        by_cases h3 : statOkNested cs srcDir e = true
        · rw [List.find?_cons_of_pos _ (by simpa using h3)]
          simp [epLoop, h1, h2, h3]
        · rw [List.find?_cons_of_neg _ (by simpa using h3)]
          unfold epLoop
          rw [if_neg (by simp [h1]), if_neg (by simp [h3])]
          exact ih

/-- The entry-point loop is the first hit of the interleaved probe list. -/
lemma epLoop_eq_spec (cs : List FSTree) (srcDir : String) :
    epLoop cs srcDir entryPoints = entryPointSpec cs srcDir :=
  epLoop_eq_spec_aux cs srcDir entryPoints


lemma pruneIgnored_entryName (t : FSTree) :
    (pruneIgnored t).entryName = t.entryName := by
  cases t with
  | file n c => rfl
  | errEntry n => rfl
  | dir n cs =>
    unfold pruneIgnored
    split <;> rfl

/-- The walk neither sees nor counts anything inside an ignored directory:
pruning such directories leaves its result unchanged. -/
lemma walkOK_prune : ∀ t, walkOK (pruneIgnored t) = walkOK t := by
  refine fsIndT (Q := fun l => walkList (pruneList l) = walkList l) ?_ ?_ ?_ ?_ ?_
  · intro n c
    rfl
  · intro n
    rfl
  · intro n cs ih
    by_cases hn : n ∈ gitIgnore
    · simp [pruneIgnored, walkOK, hn]
    · simp [pruneIgnored, walkOK, hn, ih]
  · rfl
  · intro t l iht ihl
    match t with
    | .errEntry n =>
      simp only [pruneList, pruneIgnored, walkList, ihl]
    | .file n c =>
      have hp : pruneIgnored (.file n c) = .file n c := rfl
      simp only [pruneList, hp, walkList, ihl]
    | .dir n cs =>
      by_cases hn : n ∈ gitIgnore
      · have hp : pruneIgnored (.dir n cs) = .dir n [] := by
          simp [pruneIgnored, hn]
        have h1 : walkOK (.dir n ([] : List FSTree)) = walkOK (.dir n cs) := by
          have h := iht
          rwa [hp] at h
        simp only [pruneList, hp, walkList, ihl, h1]
      · have hp : pruneIgnored (.dir n cs) = .dir n (pruneList cs) := by
          simp [pruneIgnored, hn]
        have h1 : walkOK (.dir n (pruneList cs)) = walkOK (.dir n cs) := by
          have h := iht
          rwa [hp] at h
        simp only [pruneList, hp, walkList, ihl, h1]

lemma walkList_prune : ∀ l, walkList (pruneList l) = walkList l := by
  intro l
  induction l with
  | nil => rfl
  | cons t rest ih =>
    match t with
    | .errEntry n =>
      simp only [pruneList, pruneIgnored, walkList, ih]
    | .file n c =>
      have hp : pruneIgnored (.file n c) = .file n c := rfl
      simp only [pruneList, hp, walkList, ih]
    | .dir n cs =>
      by_cases hn : n ∈ gitIgnore
      · have hp : pruneIgnored (.dir n cs) = .dir n [] := by
          simp [pruneIgnored, hn]
        have h1 : walkOK (.dir n ([] : List FSTree)) = walkOK (.dir n cs) := by
          have h := walkOK_prune (.dir n cs)
          rwa [hp] at h
        simp only [pruneList, hp, walkList, ih, h1]
      · have hp : pruneIgnored (.dir n cs) = .dir n (pruneList cs) := by
          simp [pruneIgnored, hn]
        have h1 : walkOK (.dir n (pruneList cs)) = walkOK (.dir n cs) := by
          have h := walkOK_prune (.dir n cs)
          rwa [hp] at h
        simp only [pruneList, hp, walkList, ih, h1]

/-- Pruning ignored directories does not change the collected extensions. -/
lemma collectedExts_prune (r : Root) :
    collectedExts (pruneRoot r) = collectedExts r := by
  cases r with
  | missing => rfl
  | present t =>
    cases t with
    | file n c => rfl
    | errEntry n => rfl
    | dir n cs =>
      show (walkOK (.dir n (pruneList cs))).2 = (walkOK (.dir n cs)).2
      by_cases hn : n ∈ gitIgnore
      · simp [walkOK, hn]
      · simp [walkOK, hn, walkList_prune]

lemma pruneRoot_children (r : Root) :
    (pruneRoot r).children = pruneList r.children := by
  cases r with
  | missing => rfl
  | present t =>
    cases t with
    | file n c => rfl
    | errEntry n => rfl
    | dir n cs => rfl

lemma find?_pruneList (cs : List FSTree) (nm : String) :
    (pruneList cs).find? (fun e => e.entryName == nm) =
      (cs.find? (fun e => e.entryName == nm)).map pruneIgnored := by
  induction cs with
  | nil => rfl
  | cons t rest ih =>
    simp only [pruneList, List.find?_cons]
    rw [pruneIgnored_entryName]
    split <;> simp [ih]

lemma statEntry_prune (cs : List FSTree) (nm : String) :
    statEntry (pruneList cs) nm = (statEntry cs nm).map pruneIgnored := by
  unfold statEntry
  rw [find?_pruneList]
  cases h : cs.find? (fun e => e.entryName == nm) with
  | none => rfl
  | some t =>
    cases t with
    | file n c => rfl
    | errEntry n => rfl
    | dir n cs2 =>
      by_cases hn : n ∈ gitIgnore <;> simp [pruneIgnored, hn]

lemma statOk_prune (cs : List FSTree) (nm : String) :
    statOk (pruneList cs) nm = statOk cs nm := by
  unfold statOk
  rw [statEntry_prune]
  rcases statEntry cs nm with _ | t <;> rfl

lemma statIsDir_prune (cs : List FSTree) (nm : String) :
    statIsDir (pruneList cs) nm = statIsDir cs nm := by
  unfold statIsDir
  rw [statEntry_prune]
  cases statEntry cs nm with
  | none => rfl
  | some t =>
    cases t with
    | file n c => rfl
    | errEntry n => rfl
    | dir n cs2 =>
      by_cases hn : n ∈ gitIgnore <;> simp [pruneIgnored, hn]

lemma readParsePkg_prune (cs : List FSTree) :
    readParsePkg (pruneList cs) = readParsePkg cs := by
  unfold readParsePkg
  rw [find?_pruneList]
  cases h : cs.find? (fun e => e.entryName == "package.json") with
  | none => rfl
  | some t =>
    cases t with
    | file n c =>
      cases c <;> rfl
    | errEntry n => rfl
    | dir n cs2 =>
      by_cases hn : n ∈ gitIgnore <;> simp [pruneIgnored, hn]

lemma statOkNested_prune (cs : List FSTree) (d nm : String)
    (hd : gitIgnore.contains d = false) :
    statOkNested (pruneList cs) d nm = statOkNested cs d nm := by
  unfold statOkNested
  rw [statEntry_prune]
  cases h : statEntry cs d with
  | none => rfl
  | some t =>
    have hname : t.entryName = d := by
      unfold statEntry at h
      cases hf : cs.find? (fun e => e.entryName == d) with
      | none => rw [hf] at h; cases h
      | some u =>
        have hu := List.find?_some hf
        simp only [beq_iff_eq] at hu
        rw [hf] at h
        cases u with
        | errEntry n => cases h
        | file n c => cases h; exact hu
        | dir n cs2 => cases h; exact hu
    cases t with
    | file n c => rfl
    | errEntry n => rfl
    | dir n cs2 =>
      have hn : n ∉ gitIgnore := by
        have : n = d := hname
        subst this
        simpa using hd
      simp [pruneIgnored, hn, statOk_prune]

lemma foundDirsOf_prune (cs : List FSTree) :
    foundDirsOf (pruneList cs) = foundDirsOf cs := by
  unfold foundDirsOf
  apply List.filter_congr
  intro d _
  exact statIsDir_prune cs d

lemma srcDirVal_prune (cs : List FSTree) :
    srcDirVal (pruneList cs) = srcDirVal cs := by
  unfold srcDirVal
  rw [foundDirsOf_prune]

lemma srcDirVal_cases (cs : List FSTree) :
    srcDirVal cs = "src" ∨ srcDirVal cs = "app" ∨ srcDirVal cs = "" := by
  unfold srcDirVal srcDirOf
  split
  · exact Or.inl rfl
  · split
    · exact Or.inr (Or.inl rfl)
    · exact Or.inr (Or.inr rfl)

lemma epLoop_prune (cs : List FSTree) (srcDir : String)
    (hs : srcDir = "" ∨ gitIgnore.contains srcDir = false) :
    ∀ l, epLoop (pruneList cs) srcDir l = epLoop cs srcDir l := by
  intro l
  induction l with
  | nil => rfl
  | cons e rest ih =>
    unfold epLoop
    rw [statOk_prune]
    rcases hs with hs | hs
    · subst hs
      simp [ih]
    · rw [statOkNested_prune cs srcDir e hs]
      simp only [ih]

lemma structVal_prune (cs : List FSTree) :
    structVal (pruneList cs) = structVal cs := by
  unfold structVal
  rw [statOk_prune, statOk_prune, statOk_prune, statOk_prune, statOk_prune,
    foundDirsOf_prune, srcDirVal_prune]
  rw [epLoop_prune]
  rcases srcDirVal_cases cs with h | h | h <;> rw [h]
  · exact Or.inr (by decide)
  · exact Or.inr (by decide)
  · exact Or.inl rfl

/-- The naming loop writes only the two naming fields. -/
lemma patternsLoop_fields (L : List Language) (p : Patterns) :
    (patternsLoop L p).testFramework = p.testFramework ∧
    (patternsLoop L p).linter = p.linter ∧
    (patternsLoop L p).formatter = p.formatter ∧
    (patternsLoop L p).orm = p.orm ∧
    (patternsLoop L p).stateManagement = p.stateManagement ∧
    (patternsLoop L p).styling = p.styling := by
  induction L with
  | nil => simp [patternsLoop]
  | cons l rest ih =>
    unfold patternsLoop
    split
    · simp
    · split
      · simp
      · split
        · simp
        · exact ih

/-- The walk's return value, as checked by `if err != nil` in `Analyze`,
is nil for every filesystem state, so `Analyze` always returns `ok`. -/
lemma analyze_never_fails (az : Analyzer) (order : List String) :
    az.Analyze order = .ok (analyze az order) := by
  unfold Analyzer.Analyze
  cases h : (filepathWalk az.tree).1 <;> rfl

/-! ## The claims -/

/-- C1 counterexample: the claim says a missing/inaccessible root makes
`Analyze()` return an error and no `Analysis`.  In the code the walk callback
returns nil on every error — including the initial `lstat` failure on the
root — so `filepath.Walk` returns nil and `Analyze()` returns a fully
populated `Analysis` with no error even for a missing root. -/
theorem C1_counterexample :
    Analyzer.Analyze { rootPath := "/missing", tree := Root.missing } [] =
      .ok { rootPath := "/missing", languages := [], framework := none
            structure_ := { type := "standard", srcDir := "", folders := []
                            entryPoint := "" }
            packages := { manager := "", dependencies := some [], devDeps := none }
            patterns := { namingConvention := "", exportStyle := ""
                          testFramework := "", linter := "", formatter := ""
                          orm := "", stateManagement := "", styling := "" }
            decisions := [] } := rfl

/-- C1 amended: `Analyze()` never returns an error — for every root state
(missing, inaccessible, or present) and every map iteration order it returns
a completed `Analysis`; per-entry errors during traversal are skipped. -/
theorem C1_amended (az : Analyzer) (order : List String) :
    az.Analyze order = .ok (analyze az order) :=
  analyze_never_fails az order

/-- C2 counterexample: in the claimed scenario — a root-level `main.go`,
`src/index.ts` present, `srcDir = "src"`, no root-level candidate earlier
than `main.go` in the list — the code picks `src/index.ts`, not `main.go`,
because every candidate is probed at both levels before moving on. -/
theorem C2_counterexample :
    (analyze c2Tree [".go", ".ts"]).structure_.srcDir = "src" ∧
    statOk c2Tree.tree.children "main.go" = true ∧
    statOk c2Tree.tree.children "index.ts" = false ∧
    statOk c2Tree.tree.children "index.js" = false ∧
    statOk c2Tree.tree.children "main.ts" = false ∧
    statOk c2Tree.tree.children "main.js" = false ∧
    (analyze c2Tree [".go", ".ts"]).structure_.entryPoint ≠ "main.go" ∧
    (analyze c2Tree [".go", ".ts"]).structure_.entryPoint = "src/index.ts" := by
  decide

/-- C2 amended: entry-point detection walks the candidate list once and for
each candidate probes root first and then (when set) srcDir, breaking on the
first hit — so the entry point is the first existing probe of the
interleaved sequence, and an earlier candidate under srcDir beats a later
candidate at root. -/
theorem C2_amended (az : Analyzer) (order : List String) :
    (analyze az order).structure_.entryPoint =
      entryPointSpec az.tree.children (srcDirVal az.tree.children) := by
  rw [analyze_decomp]
  exact epLoop_eq_spec az.tree.children (srcDirVal az.tree.children)

/-- C3: in every analysis the language file counts sum to the number of
recognized files seen by the walk, extensions are pairwise distinct, every
percentage is `fileCount/total*100`, an empty total yields an empty language
list (no division-by-zero entry), and a file whose lowercase extension is
empty or unrecognized contributes nothing to the histogram. -/
theorem C3_languages_invariants (az : Analyzer) (order : List String)
    (h : validOrder (collectedExts az.tree) order) :
    ((analyze az order).languages.map Language.fileCount).sum =
        (collectedExts az.tree).length ∧
    ((analyze az order).languages.map Language.extension).Nodup ∧
    (∀ l ∈ (analyze az order).languages,
        l.percentage =
          (l.fileCount : ℚ) / ((collectedExts az.tree).length : ℚ) * 100) ∧
    ((collectedExts az.tree).length = 0 → (analyze az order).languages = []) ∧
    (∀ (n : String) (c : Option JValue), isCounted n = false →
        (walkOK (.file n c)).2 = []) := by
  have hlang : ∀ e ∈ order, extensionToLanguage e ≠ "" := fun e he =>
    lang_of_code e (collected_code az.tree e (h.2.1 e he))
  simp only [analyze_decomp]
  rw [mkLanguages_eq_map _ _ hlang]
  refine ⟨?_, ?_, ?_, ?_, ?_⟩
  · rw [List.map_map]
    exact sum_counts_of_validOrder _ _ h
  · rw [List.map_map]
    show (order.map fun e => e).Nodup
    simpa using h.1
  · intro l hl
    rcases List.mem_map.mp hl with ⟨e, _, rfl⟩
    rfl
  · intro hlen
    have hnil : collectedExts az.tree = [] := List.length_eq_zero.mp hlen
    have : order = [] := by
      rw [List.eq_nil_iff_forall_not_mem]
      intro e he
      exact (List.not_mem_nil e) (hnil ▸ h.2.1 e he)
    rw [this]
    rfl
  · intro n c hn
    simp [walkOK, hn]

/-- C3 witness: a tree with three recognized files (two Go, one Python), one
unrecognized file and an ignored directory; `[".go", ".py"]` is a valid
iteration order and the invariants hold with total 3. -/
theorem C3_witness :
    validOrder (collectedExts c3Tree.tree) [".go", ".py"] ∧
    ((analyze c3Tree [".go", ".py"]).languages.map Language.fileCount).sum = 3 ∧
    ((analyze c3Tree [".go", ".py"]).languages.map Language.extension).Nodup := by
  have h := C3_languages_invariants c3Tree [".go", ".py"] (by decide)
  exact ⟨by decide, h.1.trans (by decide), h.2.1⟩

/-- C4: the analysis of a tree is unchanged when the contents of every
directory whose base name is on the ignore list — at any depth — are thrown
away, so no file inside such a directory is counted in the language
histogram, affects a percentage, or influences any other field. -/
theorem C4_ignored_dirs_pruned (az : Analyzer) (order : List String) :
    analyze { rootPath := az.rootPath, tree := pruneRoot az.tree } order =
      analyze az order := by
  have h1 : fwFinal (pruneList az.tree.children) = fwFinal az.tree.children := by
    unfold fwFinal
    rw [readParsePkg_prune]
  have h2 : pkFinal (pruneList az.tree.children) = pkFinal az.tree.children := by
    unfold pkFinal mgrFinal depsFinal devFinal
    rw [readParsePkg_prune, statOk_prune, statOk_prune, statOk_prune]
  have h3 : patFinal (pruneList az.tree.children) = patFinal az.tree.children := by
    unfold patFinal
    rw [readParsePkg_prune]
  rw [analyze_decomp, analyze_decomp]
  simp only [pruneRoot_children, collectedExts_prune, h1, h2, h3, structVal_prune]

/-- C5: whenever `package.json` parses and its dependencies contain the key
`next` with version `v`, the recorded framework is exactly
`{name := "Next.js", version := v}` — regardless of any other dependency
such as react — and no other framework is recorded (the field holds at most
one framework by construction). -/
theorem C5_framework_priority (az : Analyzer) (order : List String)
    (pkg : PkgStruct) (v : String)
    (hp : readParsePkg az.tree.children = some pkg)
    (hv : GoMap.find? pkg.dependencies "next" = some v) :
    (analyze az order).framework = some { name := "Next.js", version := v } := by
  rw [analyze_decomp]
  show fwFinal az.tree.children = _
  unfold fwFinal
  rw [hp]
  show frameworkOfDeps pkg.dependencies = _
  unfold frameworkOfDeps
  rw [hv]

/-- C5 witness: with dependencies next ^14.2.0 and react ^18.2.0 the
framework is Next.js at ^14.2.0. -/
theorem C5_witness :
    (analyze c5Tree []).framework =
      some { name := "Next.js", version := "^14.2.0" } :=
  C5_framework_priority c5Tree []
    ⟨some [("next", "^14.2.0"), ("react", "^18.2.0")], none⟩ "^14.2.0" rfl rfl

/-- C6: when the npm manifest parses, the final manager is the last manifest
check in source order whose probe fires (spec's last-wins reading), while the
framework, both dependency maps, and every pattern field detected from the
npm manifest are retained unchanged whatever other manifests exist. -/
theorem C6_manager_last_wins (az : Analyzer) (order : List String)
    (pkg : PkgStruct)
    (hp : readParsePkg az.tree.children = some pkg) :
    (analyze az order).packages.manager = managerSpecLastWins az.tree.children ∧
    (analyze az order).framework = frameworkOfDeps pkg.dependencies ∧
    (analyze az order).packages.dependencies = pkg.dependencies ∧
    (analyze az order).packages.devDeps = pkg.devDependencies ∧
    (analyze az order).patterns.orm = (ormOfDeps pkg.dependencies).getD "" ∧
    (analyze az order).patterns.testFramework =
      (testFwOfDeps pkg.devDependencies).getD "" ∧
    (analyze az order).patterns.styling =
      (stylingOfDeps pkg.dependencies pkg.devDependencies).getD "" ∧
    (analyze az order).patterns.stateManagement =
      (stateOfDeps pkg.dependencies).getD "" ∧
    (analyze az order).patterns.linter =
      (if (GoMap.find? pkg.devDependencies "eslint").isSome then "ESLint" else "") ∧
    (analyze az order).patterns.formatter =
      (formatterOfDeps pkg.devDependencies).getD "" := by
  have hper := patternsLoop_fields
    (mkLanguages (collectedExts az.tree) order) (patFinal az.tree.children)
  rw [analyze_decomp]
  refine ⟨rfl, ?_, ?_, ?_, ?_, ?_, ?_, ?_, ?_, ?_⟩
  · show fwFinal az.tree.children = _
    unfold fwFinal
    rw [hp]
  · show depsFinal az.tree.children = _
    unfold depsFinal
    rw [hp]
  · show devFinal az.tree.children = _
    unfold devFinal
    rw [hp]
  · refine hper.2.2.2.1.trans ?_
    unfold patFinal
    rw [hp]
  · refine hper.1.trans ?_
    unfold patFinal
    rw [hp]
  · refine hper.2.2.2.2.2.trans ?_
    unfold patFinal
    rw [hp]
  · refine hper.2.2.2.2.1.trans ?_
    unfold patFinal
    rw [hp]
  · refine hper.2.1.trans ?_
    unfold patFinal
    rw [hp]
  · refine hper.2.2.1.trans ?_
    unfold patFinal
    rw [hp]

/-- C6 witness: with a valid npm manifest (next ^14.2.0) and a `go.mod` both
present (and no Python manifest), the manager is "go" while the framework
from `package.json` is kept. -/
theorem C6_witness :
    (analyze c6Tree []).packages.manager = "go" ∧
    (analyze c6Tree []).framework =
      some { name := "Next.js", version := "^14.2.0" } := by
  have h := C6_manager_last_wins c6Tree [] ⟨some [("next", "^14.2.0")], none⟩ rfl
  exact ⟨h.1.trans (by decide), h.2.1.trans (by decide)⟩

/-- C7: a `package.json` that exists as a regular file but fails to read as
the expected dependency structure is treated as absent — `Analyze()` still
succeeds, no framework is recorded, the manager is never "npm", and none of
the ORM, test-framework, styling, state-management, linter or formatter
fields is set. -/
theorem C7_malformed_manifest (az : Analyzer) (order : List String)
    (c : Option JValue)
    (_hf : az.tree.children.find? (fun e => e.entryName == "package.json") =
      some (.file "package.json" c))
    (hp : readParsePkg az.tree.children = none) :
    analyzeOk (az.Analyze order) = true ∧
    (analyze az order).framework = none ∧
    (analyze az order).packages.manager ≠ "npm" ∧
    (analyze az order).patterns.orm = "" ∧
    (analyze az order).patterns.testFramework = "" ∧
    (analyze az order).patterns.styling = "" ∧
    (analyze az order).patterns.stateManagement = "" ∧
    (analyze az order).patterns.linter = "" ∧
    (analyze az order).patterns.formatter = "" := by
  have hper := patternsLoop_fields
    (mkLanguages (collectedExts az.tree) order) (patFinal az.tree.children)
  have hpat : patFinal az.tree.children = blankPatterns := by
    unfold patFinal
    rw [hp]
  constructor
  · rw [analyze_never_fails]
    rfl
  rw [analyze_decomp]
  refine ⟨?_, ?_, ?_, ?_, ?_, ?_, ?_, ?_⟩
  · show fwFinal az.tree.children = none
    unfold fwFinal
    rw [hp]
  · show mgrFinal az.tree.children ≠ "npm"
    unfold mgrFinal
    rw [hp]
    by_cases h1 : statOk az.tree.children "pyproject.toml" = true <;>
      by_cases h2 : statOk az.tree.children "requirements.txt" = true <;>
        by_cases h3 : statOk az.tree.children "go.mod" = true <;>
          simp [h1, h2, h3]
  · exact hper.2.2.2.1.trans (by rw [hpat]; rfl)
  · exact hper.1.trans (by rw [hpat]; rfl)
  · exact hper.2.2.2.2.2.trans (by rw [hpat]; rfl)
  · exact hper.2.2.2.2.1.trans (by rw [hpat]; rfl)
  · exact hper.2.1.trans (by rw [hpat]; rfl)
  · exact hper.2.2.1.trans (by rw [hpat]; rfl)

/-- C7 witness: a `package.json` whose bytes are not valid JSON, next to a
TypeScript file; the analysis succeeds with no npm-derived field. -/
theorem C7_witness :
    analyzeOk (c7Tree.Analyze [".ts"]) = true ∧
    (analyze c7Tree [".ts"]).framework = none ∧
    (analyze c7Tree [".ts"]).packages.manager ≠ "npm" := by
  have h := C7_malformed_manifest c7Tree [".ts"] none rfl rfl
  exact ⟨h.1, h.2.1, h.2.2.1⟩

/-- C8 counterexample: two runs over the same unchanged tree (one Go file,
one Python file) that differ only in the map iteration order of `extCount`
produce different `patterns.namingConvention` values — a field other than
the ordering of `languages` — so the claimed field-for-field equality
fails. -/
theorem C8_counterexample :
    validOrder (collectedExts c8Tree.tree) [".go", ".py"] ∧
    validOrder (collectedExts c8Tree.tree) [".py", ".go"] ∧
    (analyze c8Tree [".go", ".py"]).patterns.namingConvention =
      "camelCase/PascalCase" ∧
    (analyze c8Tree [".py", ".go"]).patterns.namingConvention = "snake_case" ∧
    (analyze c8Tree [".go", ".py"]).patterns.exportStyle =
      "named (capitalized)" ∧
    (analyze c8Tree [".py", ".go"]).patterns.exportStyle = "" := by
  decide

/-- C8 amended: two runs of `Analyze()` on an unchanged tree agree on every
field except the ordering of `languages` (the two language lists are
permutations of each other) and except the two naming-inference fields
`patterns.namingConvention` and `patterns.exportStyle`, which are derived
from the languages ordering and may therefore differ. -/
theorem C8_idempotent_mod_order (az : Analyzer) (o1 o2 : List String)
    (h1 : validOrder (collectedExts az.tree) o1)
    (h2 : validOrder (collectedExts az.tree) o2) :
    (analyze az o1).rootPath = (analyze az o2).rootPath ∧
    (analyze az o1).languages.Perm (analyze az o2).languages ∧
    (analyze az o1).framework = (analyze az o2).framework ∧
    (analyze az o1).structure_ = (analyze az o2).structure_ ∧
    (analyze az o1).packages = (analyze az o2).packages ∧
    (analyze az o1).decisions = (analyze az o2).decisions ∧
    (analyze az o1).patterns.testFramework =
      (analyze az o2).patterns.testFramework ∧
    (analyze az o1).patterns.linter = (analyze az o2).patterns.linter ∧
    (analyze az o1).patterns.formatter = (analyze az o2).patterns.formatter ∧
    (analyze az o1).patterns.orm = (analyze az o2).patterns.orm ∧
    (analyze az o1).patterns.stateManagement =
      (analyze az o2).patterns.stateManagement ∧
    (analyze az o1).patterns.styling = (analyze az o2).patterns.styling := by
  have hperm : o1.Perm o2 :=
    (List.subperm_of_subset h1.1 fun e he => h2.2.2 e (h1.2.1 e he)).antisymm
      (List.subperm_of_subset h2.1 fun e he => h1.2.2 e (h2.2.1 e he))
  have hl1 := patternsLoop_fields
    (mkLanguages (collectedExts az.tree) o1) (patFinal az.tree.children)
  have hl2 := patternsLoop_fields
    (mkLanguages (collectedExts az.tree) o2) (patFinal az.tree.children)
  rw [analyze_decomp az o1, analyze_decomp az o2]
  refine ⟨rfl, ?_, rfl, rfl, rfl, rfl, ?_, ?_, ?_, ?_, ?_, ?_⟩
  · exact hperm.filterMap _
  · exact hl1.1.trans hl2.1.symm
  · exact hl1.2.1.trans hl2.2.1.symm
  · exact hl1.2.2.1.trans hl2.2.2.1.symm
  · exact hl1.2.2.2.1.trans hl2.2.2.2.1.symm
  · exact hl1.2.2.2.2.1.trans hl2.2.2.2.2.1.symm
  · exact hl1.2.2.2.2.2.trans hl2.2.2.2.2.2.symm

/-- C8 amended witness: on the Go-and-Python tree the two iteration orders
yield equal packages and permuted language lists. -/
theorem C8_idempotent_witness :
    (analyze c8Tree [".go", ".py"]).packages =
      (analyze c8Tree [".py", ".go"]).packages ∧
    (analyze c8Tree [".go", ".py"]).languages.Perm
      (analyze c8Tree [".py", ".go"]).languages := by
  have h := C8_idempotent_mod_order c8Tree [".go", ".py"] [".py", ".go"]
    (by decide) (by decide)
  exact ⟨h.2.2.2.2.1, h.2.1⟩

/-- C9: the monorepo probes for `packages` and `apps` test only that
`os.Stat` succeeds, not that the entry is a directory — a regular file of
either name at the root makes the structure type "monorepo". -/
theorem C9_monorepo_probe_is_existence (az : Analyzer) (order : List String)
    (h : (∃ c, statEntry az.tree.children "packages" =
            some (.file "packages" c)) ∨
         (∃ c, statEntry az.tree.children "apps" = some (.file "apps" c))) :
    (analyze az order).structure_.type = "monorepo" := by
  rw [analyze_decomp]
  show (structVal az.tree.children).type = _
  unfold structVal
  rcases h with ⟨c, h⟩ | ⟨c, h⟩
  · have hs : statOk az.tree.children "packages" = true := by
      unfold statOk
      rw [h]
      rfl
    simp [hs]
  · have hs : statOk az.tree.children "apps" = true := by
      unfold statOk
      rw [h]
      rfl
    simp [hs]

/-- C9 witness: a regular file named `packages` directly under root. -/
theorem C9_witness : (analyze c9Tree []).structure_.type = "monorepo" :=
  C9_monorepo_probe_is_existence c9Tree [] (Or.inl ⟨none, rfl⟩)

/-- C10: whenever `package.json` unmarshals without error (including the
JSON literal `null` and objects lacking both maps, when no other manifest is
present) the manager is set to "npm" and the dependency maps are overwritten
with the parsed maps — possibly nil, replacing the non-nil empty map the
fresh analysis starts with — and with both parsed maps nil no framework and
no pattern field is set by the manifest block. -/
theorem C10_npm_block (az : Analyzer) (order : List String) (pkg : PkgStruct)
    (hp : readParsePkg az.tree.children = some pkg)
    (hg : statOk az.tree.children "go.mod" = false)
    (hpy : statOk az.tree.children "pyproject.toml" = false)
    (hrq : statOk az.tree.children "requirements.txt" = false) :
    (analyze az order).packages.manager = "npm" ∧
    (analyze az order).packages.dependencies = pkg.dependencies ∧
    (analyze az order).packages.devDeps = pkg.devDependencies ∧
    (initAnalysis az.rootPath []).packages.dependencies = some [] ∧
    (pkg.dependencies = none → pkg.devDependencies = none →
      (analyze az order).framework = none ∧
      (analyze az order).patterns.orm = "" ∧
      (analyze az order).patterns.testFramework = "" ∧
      (analyze az order).patterns.styling = "" ∧
      (analyze az order).patterns.stateManagement = "" ∧
      (analyze az order).patterns.linter = "" ∧
      (analyze az order).patterns.formatter = "") := by
  have hper := patternsLoop_fields
    (mkLanguages (collectedExts az.tree) order) (patFinal az.tree.children)
  rw [analyze_decomp]
  refine ⟨?_, ?_, ?_, rfl, ?_⟩
  · show mgrFinal az.tree.children = "npm"
    unfold mgrFinal
    rw [hp, hg, hpy, hrq]
    rfl
  · show depsFinal az.tree.children = _
    unfold depsFinal
    rw [hp]
  · show devFinal az.tree.children = _
    unfold devFinal
    rw [hp]
  · intro hd hv
    have hpat : patFinal az.tree.children = blankPatterns := by
      unfold patFinal
      simp only [hp, hd, hv]
      rfl
    refine ⟨?_, ?_, ?_, ?_, ?_, ?_, ?_⟩
    · show fwFinal az.tree.children = none
      unfold fwFinal
      rw [hp]
      show frameworkOfDeps pkg.dependencies = none
      rw [hd]
      rfl
    · exact hper.2.2.2.1.trans (by rw [hpat]; rfl)
    · exact hper.1.trans (by rw [hpat]; rfl)
    · exact hper.2.2.2.2.2.trans (by rw [hpat]; rfl)
    · exact hper.2.2.2.2.1.trans (by rw [hpat]; rfl)
    · exact hper.2.1.trans (by rw [hpat]; rfl)
    · exact hper.2.2.1.trans (by rw [hpat]; rfl)

/-- C10 witness: `package.json` holding the JSON literal `null` — the parse
succeeds with both maps nil; the manager becomes "npm", the dependency map
is overwritten with nil, and no framework is set. -/
theorem C10_witness :
    (analyze c10Tree []).packages.manager = "npm" ∧
    (analyze c10Tree []).packages.dependencies = none ∧
    (analyze c10Tree []).framework = none := by
  have h := C10_npm_block c10Tree [] ⟨none, none⟩ rfl rfl rfl rfl
  exact ⟨h.1, h.2.1, (h.2.2.2.2 rfl rfl).1⟩

end CPilot
